import Mathlib

set_option maxRecDepth 4000

/-
  Verification development for the GeneSim-Lab repository (src/main.py).

  The Python program is shallowly embedded: strings manipulated character
  by character become `List Char`, the gene registry dictionary becomes an
  association list keyed by the uppercased symbol characters, exceptions
  become an explicit error type, and in-place mutation becomes explicit
  state passing.  Where a Python method mutates `self` before raising, the
  embedded function returns the partially mutated state together with the
  error, so failed calls are modelled faithfully.  Randomness
  (`random.shuffle`, `random.choice`) is modelled by explicit oracle
  parameters; theorems either quantify over all oracles or assume that a
  shuffle oracle produces a permutation of its input.
-/

/-- Error kinds raised by the program (each corresponds to one of the
`ValueError` messages in src/main.py, plus `keyError` for Python `KeyError`
or `IndexError` escapes). -/
inductive Err where
  | invalidGene
  | duplicateGene
  | unknownGene
  | malformedGenotype
  | invalidAllele
  | badAlleleOrder
  | lengthMismatch
  | invalidMode
  | insufficientPopulation
  | insufficientQuantity
  | invalidLength
  | noGenesDefined
  | unknownGroup
  | badArgument
  | duplicateLocus
  | keyError
deriving DecidableEq

/-- Embeds the Python `Gene` object: `dominant` is stored uppercased and
`recessive` lowercased (`Gene.__init__`, main.py lines 10-18). -/
structure Gene where
  dominant : Char
  recessive : Char
  dom_trait : String
  rec_trait : String
deriving DecidableEq

/-- Embeds `Gene.__init__` (main.py lines 10-18): both allele arguments must
be single characters and must differ (plain string equality); on success the
dominant character is uppercased and the recessive one lowercased.  A Python
string is embedded through its character list. -/
def mkGene (dominant recessive : String) (dom_trait rec_trait : String) : Except Err Gene :=
  match dominant.toList, recessive.toList with
  | [d], [r] =>
      if dominant = recessive then Except.error Err.invalidGene
      else Except.ok ⟨d.toUpper, r.toLower, dom_trait, rec_trait⟩
  | _, _ => Except.error Err.invalidGene

/-- The gene registry `self.genes`: a dictionary from the uppercased symbol
(a Python string, embedded as its character list) to the `Gene`.  Insertion
order is kept, as in a Python dict. -/
abbrev GeneDict := List (List Char × Gene)

/-- Dictionary lookup `genes_dict[symbol]` / `symbol in genes_dict`. -/
def findGene (d : GeneDict) (k : List Char) : Option Gene :=
  match d.find? (fun p => decide (p.1 = k)) with
  | some p => some p.2
  | none => none

/-- Embeds `GeneticSimulationSystem.add_gene` (main.py lines 395-406): with
four arguments, the duplicate check on `dom.upper()` runs first, then the
`Gene` constructor validates the alleles; on success the new gene is stored
under the uppercased dominant symbol. -/
def add_gene (genes : GeneDict) (args : List String) : Except Err GeneDict :=
  match args with
  | [dom, rec, dom_t, rec_t] =>
      let gene_symbol := dom.toList.map Char.toUpper
      if (findGene genes gene_symbol).isSome then Except.error Err.duplicateGene
      else
        match mkGene dom rec dom_t rec_t with
        | Except.error e => Except.error e
        | Except.ok g => Except.ok (genes ++ [(gene_symbol, g)])
  | _ => Except.error Err.badArgument

/-- The per-locus scan of `GeneComposition.validate` (main.py lines 41-60):
for each two-character locus, the uppercased first character must name a
registered gene, both characters must be alleles of that gene, and a
heterozygous locus must be written dominant-first. -/
def validateLoci (d : GeneDict) : List Char → Except Err Unit
  | [] => Except.ok ()
  | a :: b :: rest =>
      match findGene d [a.toUpper] with
      | none => Except.error Err.unknownGene
      | some gene =>
          if ¬(a = gene.dominant ∨ a = gene.recessive) ∨
             ¬(b = gene.dominant ∨ b = gene.recessive) then
            Except.error Err.invalidAllele
          else if b = gene.dominant ∧ a = gene.recessive then
            Except.error Err.badAlleleOrder
          else validateLoci d rest
  | [_] => Except.error Err.malformedGenotype

/-- Embeds `GeneComposition.validate` (main.py lines 36-60): an odd-length
genotype is malformed; otherwise the loci are scanned in steps of two. -/
def validate (s : List Char) (d : GeneDict) : Except Err Unit :=
  if s.length % 2 ≠ 0 then Except.error Err.malformedGenotype
  else validateLoci d s

/-- The two experiment modes of a `SimulationGroup`. -/
inductive Mode where
  | random
  | cross
deriving DecidableEq

/-- Embeds the `SimulationGroup` state (main.py lines 65-71). -/
structure SimulationGroup where
  current_generation : List (List Char)
  gene_structure : List Gene
  gene_length : Nat
  experiment_mode : Mode
  breed_history : List (Nat × Nat)
deriving DecidableEq

/-- A freshly constructed `SimulationGroup()`. -/
def SimulationGroup.init : SimulationGroup := ⟨[], [], 0, Mode.random, []⟩

/-- The characters at even indices of a genotype, i.e. the characters the
Python loops `for i in range(0, len, 2)` read as gene symbols. -/
def evens : List Char → List Char
  | [] => []
  | [a] => [a]
  | a :: _ :: r => a :: evens r

/-- The symbol-scanning loop of `initialize_structure` (main.py lines 79-87):
walks the symbol characters, failing on a repeated or unregistered symbol;
returns the gene list built so far together with the error, because the
Python loop appends to `self.gene_structure` before raising. -/
def initLoop (d : GeneDict) : List Char → List (List Char) → List Gene → List Gene × Option Err
  | [], _, acc => (acc, none)
  | c :: rest, seen, acc =>
      let sym : List Char := [c.toUpper]
      if sym ∈ seen then (acc, some Err.duplicateLocus)
      else
        match findGene d sym with
        | none => (acc, some Err.unknownGene)
        | some g => initLoop d rest (sym :: seen) (acc ++ [g])

/-- Embeds `SimulationGroup.initialize_structure` (main.py lines 73-89):
resets and rebuilds `gene_structure`; `gene_length` is only assigned after
the loop finishes, so on failure it keeps its old value while
`gene_structure` holds the partially built list. -/
def initialize_structure (g : SimulationGroup) (s : List Char) (d : GeneDict) :
    SimulationGroup × Option Err :=
  match initLoop d (evens s) [] [] with
  | (str, none) => ({ g with gene_structure := str, gene_length := s.length }, none)
  | (str, some e) => ({ g with gene_structure := str }, some e)

/-- Embeds `SimulationGroup.add_organism` (main.py lines 91-103): whenever
`current_generation` is empty the structure is (re)initialized from this
genotype, then the genotype is validated, then its length is compared to the
locked length, and finally it is appended. -/
def add_organism (g : SimulationGroup) (s : List Char) (d : GeneDict) :
    SimulationGroup × Option Err :=
  match (if g.current_generation = [] then initialize_structure g s d else (g, none)) with
  | (g1, some e) => (g1, some e)
  | (g1, none) =>
      match validate s d with
      | Except.error e => (g1, some e)
      | Except.ok _ =>
          if s.length ≠ g1.gene_length then (g1, some Err.lengthMismatch)
          else ({ g1 with current_generation := g1.current_generation ++ [s] }, none)

/-- The `add` loop of `change_composition` (main.py lines 585-588): appends
`amount` copies one at a time, stopping at the first failure. -/
def addLoop (d : GeneDict) (s : List Char) : Nat → SimulationGroup → SimulationGroup × Option Err
  | 0, g => (g, none)
  | n + 1, g =>
      match add_organism g s d with
      | (g1, some e) => (g1, some e)
      | (g1, none) => addLoop d s n g1

/-- Embeds `GeneticSimulationSystem.change_composition` (main.py lines
559-596) after group resolution and argument parsing: the genotype is
validated, its length is compared against a non-zero locked length, and then
the `add` or `del` operation runs.  The `del` branch is the literal Python
expression: filter out every occurrence, then truncate to
`len - amount` elements. -/
def change_comp (g : SimulationGroup) (d : GeneDict) (genotype : List Char)
    (op : String) (amount : Nat) : SimulationGroup × Option Err :=
  match validate genotype d with
  | Except.error e => (g, some e)
  | Except.ok _ =>
      if g.gene_length > 0 ∧ genotype.length ≠ g.gene_length then
        (g, some Err.lengthMismatch)
      else if op = "add" then addLoop d genotype amount g
      else if op = "del" then
        let cnt := g.current_generation.count genotype
        if cnt < amount then (g, some Err.insufficientQuantity)
        else
          let survivors := (g.current_generation.filter fun x => decide (x ≠ genotype)).take
            (g.current_generation.length - amount)
          ({ g with current_generation := survivors }, none)
      else (g, some Err.badArgument)

/-- Randomness oracle: `shuffleParents` stands for `random.shuffle` on the
parent list, `shufflePairs` for `random.shuffle` on the pair list, and
`pick i k` for the two `random.choice` gamete draws of pair `i` at locus
`k` (`true` selects the first allele of the pair). -/
structure Rnd where
  shuffleParents : List (List Char) → List (List Char)
  shufflePairs : List (List Char × List Char) → List (List Char × List Char)
  pick : Nat → Nat → Bool × Bool

/-- The gamete-drawing loop of `_create_child` (main.py lines 219-232): per
locus, looks up the gene of parent 1's first allele (a `KeyError` there, or
an out-of-range index into either parent, is modelled as `none`), then draws
one allele from each parent according to the oracle. -/
def gametes (d : GeneDict) (pick : Nat → Bool × Bool) :
    Nat → List Char → List Char → Option (List Char)
  | _, [], _ => some []
  | k, a :: b :: r1, c :: e :: r2 =>
      match findGene d [a.toUpper] with
      | none => none
      | some _ =>
          let ch := pick k
          let g1 := if ch.1 then a else b
          let g2 := if ch.2 then c else e
          match gametes d pick (k + 1) r1 r2 with
          | none => none
          | some rest => some (g1 :: g2 :: rest)
  | _, _, _ => none

/-- The per-locus canonicalization of `_create_child` (main.py lines
240-241): `sorted([a, b], key=lambda x: x == gene.recessive)` with a stable
sort swaps the characters exactly when the first equals the recessive allele
and the second does not. -/
def canonLocus (gene : Gene) (a b : Char) : List Char :=
  if a = gene.recessive ∧ b ≠ gene.recessive then [b, a] else [a, b]

/-- The canonicalization loop of `_create_child` (main.py lines 235-242):
re-scans the drawn characters two at a time, looking the gene up from the
first character of each locus. -/
def canonLoop (d : GeneDict) : List Char → Option (List Char)
  | [] => some []
  | a :: b :: r =>
      match findGene d [a.toUpper] with
      | none => none
      | some gene =>
          match canonLoop d r with
          | none => none
          | some rest => some (canonLocus gene a b ++ rest)
  | [_] => none

/-- Embeds `SimulationGroup._create_child` (main.py lines 216-244). -/
def create_child (d : GeneDict) (pick : Nat → Bool × Bool) (p1 p2 : List Char) :
    Option (List Char) :=
  match gametes d pick 0 p1 p2 with
  | none => none
  | some cg => canonLoop d cg

/-- Consecutive pairing `(0,1),(2,3),...` of the shuffled parent list in
random mode (main.py line 204); an odd leftover is dropped. -/
def consecPairs {α : Type} : List α → List (α × α)
  | a :: b :: r => (a, b) :: consecPairs r
  | _ => []

/-- First-occurrence key order of `defaultdict` grouping (main.py lines
180-185). -/
def keysOf : List (List Char) → List (List Char)
  | [] => []
  | a :: r => a :: keysOf (r.filter (fun x => decide (x ≠ a)))
termination_by l => l.length
decreasing_by
  simp only [List.length_cons]
  exact Nat.lt_succ_of_le (List.length_filter_le _ _)

/-- The cross-mode pair construction (main.py lines 184-195): for each key in
order, first the position-wise zips with every later key's group (cut at the
smaller count), then the within-group pairs (two popped at a time, so
`count / 2` of them).  All members of a group are the same genotype string,
so the zipped pairs are just replicated key pairs. -/
def pairsFromKeys (parents : List (List Char)) : List (List Char) → List (List Char × List Char)
  | [] => []
  | k :: rest =>
      (rest.map fun k2 => List.replicate (min (parents.count k) (parents.count k2)) (k, k2)).flatten
        ++ List.replicate (parents.count k / 2) (k, k)
        ++ pairsFromKeys parents rest

/-- All candidate pairs of cross mode, before shuffling. -/
def crossPairs (parents : List (List Char)) : List (List Char × List Char) :=
  pairsFromKeys parents (keysOf parents)

/-- The child-production loop shared by both modes (main.py lines 198-200 and
204-208): breeds the pairs in order, aborting on the first `_create_child`
failure. -/
def breedPairs (d : GeneDict) (pk : Nat → Nat → Bool × Bool) :
    Nat → List (List Char × List Char) → Option (List (List Char))
  | _, [] => some []
  | i, p :: rest =>
      match create_child d (pk i) p.1 p.2 with
      | none => none
      | some c =>
          match breedPairs d pk (i + 1) rest with
          | none => none
          | some cs => some (c :: cs)

/-- Embeds `SimulationGroup.breed` (main.py lines 170-214): fails if fewer
than two organisms exist; in cross mode breeds the first `N / 2` shuffled
candidate pairs, in random mode breeds consecutive pairs of the shuffled
parents; on success the population is replaced and a history record is
appended.  A `KeyError`/`IndexError` escaping from `_create_child` leaves
the group unchanged because the exception fires before any field of the
group is reassigned. -/
def breed (g : SimulationGroup) (d : GeneDict) (r : Rnd) : SimulationGroup × Option Err :=
  if g.current_generation.length < 2 then (g, some Err.insufficientPopulation)
  else
    let parents := g.current_generation
    let result :=
      match g.experiment_mode with
      | Mode.cross =>
          breedPairs d r.pick 0 ((r.shufflePairs (crossPairs parents)).take (parents.length / 2))
      | Mode.random =>
          breedPairs d r.pick 0 (consecPairs (r.shuffleParents parents))
    match result with
    | none => (g, some Err.keyError)
    | some next =>
        ({ g with current_generation := next,
                  breed_history := g.breed_history ++ [(parents.length, next.length)] }, none)

/-- Embeds the `GeneticSimulationSystem` state (main.py lines 250-254). -/
structure GeneticSimulationSystem where
  genes : GeneDict
  groups : List (String × SimulationGroup)
  current_group : Option String
deriving DecidableEq

/-- Lookup in the group map `self.groups`. -/
def findGroup (gs : List (String × SimulationGroup)) (k : String) : Option SimulationGroup :=
  match gs.find? (fun p => decide (p.1 = k)) with
  | some p => some p.2
  | none => none

/-- Writes back the (in Python, in-place mutated) group under its name. -/
def setGroup (gs : List (String × SimulationGroup)) (k : String) (g : SimulationGroup) :
    List (String × SimulationGroup) :=
  gs.map fun p => if p.1 = k then (k, g) else p

/-- Whether `get_statistics` can run without a `KeyError` (main.py lines
122-124): every even-position character of every genotype must name a
registered gene. -/
def statsLookupsOk (d : GeneDict) (gen : List (List Char)) : Bool :=
  gen.all fun s => (evens s).all fun c => (findGene d [c.toUpper]).isSome

/-- Embeds `GeneticSimulationSystem.run_simulation` (main.py lines 468-493).
The result is the new system state, an error that propagates out of the
handler (to be caught by `process_command`), and a flag recording whether a
breeding `ValueError` was caught and reported inside the handler itself
(the `except ValueError` at line 492). -/
def run_simulation (r : Rnd) (sys : GeneticSimulationSystem) (args : List String) :
    GeneticSimulationSystem × Option Err × Bool :=
  match (match args with
         | [] => sys.current_group
         | n :: _ => some n) with
  | none => (sys, some Err.badArgument, false)
  | some name =>
      match findGroup sys.groups name with
      | none => (sys, some Err.unknownGroup, false)
      | some grp =>
          match breed grp sys.genes r with
          | (g1, some Err.keyError) =>
              ({ sys with groups := setGroup sys.groups name g1 }, some Err.keyError, false)
          | (g1, some _) =>
              ({ sys with groups := setGroup sys.groups name g1 }, none, true)
          | (g1, none) =>
              let sys1 := { sys with groups := setGroup sys.groups name g1 }
              if statsLookupsOk sys.genes g1.current_generation then (sys1, none, false)
              else (sys1, some Err.keyError, false)

/-- One `process_command("/run")` call as issued by `run_for_times` (main.py
line 343): any exception escaping the handler is caught at the
`process_command` level (main.py lines 301-302) and only reported.  The flag
records whether any error was raised (and caught) during the call. -/
def processRun (r : Rnd) (sys : GeneticSimulationSystem) : GeneticSimulationSystem × Bool :=
  match run_simulation r sys [] with
  | (s1, some _, _) => (s1, true)
  | (s1, none, f) => (s1, f)

/-- Embeds the loop of `GeneticSimulationSystem.run_for_times` (main.py lines
342-343) after the count has been parsed: `count` sequential
`process_command("/run")` calls.  Returns the final state, the number of
run-one-generation invocations actually performed, and the number of
iterations in which an error was raised (and caught). -/
def runForTimes (rs : Nat → Rnd) : Nat → Nat → GeneticSimulationSystem →
    GeneticSimulationSystem × Nat × Nat
  | 0, _, sys => (sys, 0, 0)
  | n + 1, i, sys =>
      let step := processRun (rs i) sys
      let rest := runForTimes rs n (i + 1) step.1
      (rest.1, rest.2.1 + 1, rest.2.2 + (if step.2 then 1 else 0))

/-- One population-mutating operation, for stating invariants over operation
sequences: a direct `add_organism` (as `/random` issues), a
`change_composition` call, or a `breed` (as `/run` issues). -/
inductive Op where
  | addOrg (d : GeneDict) (s : List Char)
  | change (d : GeneDict) (genotype : List Char) (o : String) (amount : Nat)
  | breedOp (d : GeneDict) (r : Rnd)

/-- Applies one operation to a group, returning the post state (which, for
failed calls, is whatever the partially executed Python method left behind)
together with the error. -/
def applyOp (g : SimulationGroup) : Op → SimulationGroup × Option Err
  | Op.addOrg d s => add_organism g s d
  | Op.change d geno o n => change_comp g d geno o n
  | Op.breedOp d r => breed g d r

/-- Applies a sequence of operations; failures do not abort the sequence,
mirroring the command loop which reports errors and continues. -/
def applySeq (g : SimulationGroup) : List Op → SimulationGroup
  | [] => g
  | op :: rest => applySeq (applyOp g op).1 rest

/-- The population invariant of claim C10: every genotype string currently in
the population has the locked length, and that length is even. -/
def PopInv (g : SimulationGroup) : Prop :=
  ∀ s ∈ g.current_generation, s.length = g.gene_length ∧ s.length % 2 = 0

/-- A shuffle oracle that permutes its input, as `random.shuffle` does. -/
def GoodRnd (r : Rnd) : Prop :=
  (∀ l, (r.shuffleParents l).Perm l) ∧ (∀ pl, (r.shufflePairs pl).Perm pl)

/-- Side condition on an operation: breeding must use a permutation-valued
shuffle oracle. -/
def GoodOp : Op → Prop
  | Op.breedOp _ r => GoodRnd r
  | _ => True

/-- Well-formedness of a gene registry, as established by `add_gene`: every
entry is keyed by its gene's dominant character, which is already uppercase,
and the two alleles of a gene differ. -/
def WfDict (d : GeneDict) : Prop :=
  ∀ p ∈ d, p.1 = [p.2.dominant] ∧ p.2.dominant.toUpper = p.2.dominant ∧
    p.2.dominant ≠ p.2.recessive

/-- The two-character loci of a genotype, in order. -/
def loci : List Char → List (Char × Char)
  | a :: b :: r => (a, b) :: loci r
  | _ => []

/-- Specification-side reading of the per-locus checks of
`GeneComposition.validate`: the first failing check of a locus, in the
order unknown gene, invalid allele, bad order. -/
def locusErr (d : GeneDict) (ab : Char × Char) : Option Err :=
  match findGene d [ab.1.toUpper] with
  | none => some Err.unknownGene
  | some gene =>
      if ¬(ab.1 = gene.dominant ∨ ab.1 = gene.recessive) ∨
         ¬(ab.2 = gene.dominant ∨ ab.2 = gene.recessive) then
        some Err.invalidAllele
      else if ab.2 = gene.dominant ∧ ab.1 = gene.recessive then
        some Err.badAlleleOrder
      else none

/-- First `some` of a list of optional errors (the first locus failure wins). -/
def firstSome {α : Type} : List (Option α) → Option α
  | [] => none
  | none :: r => firstSome r
  | some a :: _ => some a

/-- A child locus is well formed with respect to the pair of parent loci it
came from: one character stems from parent 1's two alleles and the other
from parent 2's two alleles at that locus, and the locus is never written
recessive-then-dominant with respect to the registered gene of its first
character. -/
def childLocusOk (d : GeneDict) (ab : Char × Char) (pq : (Char × Char) × (Char × Char)) : Prop :=
  ((ab.1 = pq.1.1 ∨ ab.1 = pq.1.2) ∧ (ab.2 = pq.2.1 ∨ ab.2 = pq.2.2) ∨
   (ab.2 = pq.1.1 ∨ ab.2 = pq.1.2) ∧ (ab.1 = pq.2.1 ∨ ab.1 = pq.2.2)) ∧
  ∀ g, findGene d [ab.1.toUpper] = some g → ¬(ab.1 = g.recessive ∧ ab.2 = g.dominant)

/-- One allele drawn from each parent at a locus. -/
def gameteFrom (ab : Char × Char) (pq : (Char × Char) × (Char × Char)) : Prop :=
  (ab.1 = pq.1.1 ∨ ab.1 = pq.1.2) ∧ (ab.2 = pq.2.1 ∨ ab.2 = pq.2.2)

/-- Canonicalization relates an output locus to its input locus: the pair is
kept or swapped, and the output is never recessive-then-dominant for the
gene registered under its first character. -/
def canonRel (d : GeneDict) (xy ab : Char × Char) : Prop :=
  (xy = ab ∨ xy = (ab.2, ab.1)) ∧
  ∀ g, findGene d [xy.1.toUpper] = some g → ¬(xy.1 = g.recessive ∧ xy.2 = g.dominant)

/- Concrete fixtures used by witnesses and counterexamples. -/

/-- Concrete gene A, as registered by `/add A a tall short`. -/
def geneA : Gene := ⟨'A', 'a', "tall", "short"⟩

/-- Concrete gene B, as registered by `/add B b round wrinkled`. -/
def geneB : Gene := ⟨'B', 'b', "round", "wrinkled"⟩

/-- A registry holding gene A. -/
def dictA : GeneDict := [(['A'], geneA)]

/-- A registry holding genes A and B. -/
def dictAB : GeneDict := [(['A'], geneA), (['B'], geneB)]

/-- The identity randomness oracle (a legitimate shuffle outcome). -/
def idRnd : Rnd := ⟨fun l => l, fun l => l, fun _ _ => (true, true)⟩

/-- A group holding a single `Aa` organism. -/
def groupOne : SimulationGroup := ⟨[['A', 'a']], [geneA], 2, Mode.random, []⟩

/-- A group holding two `Aa` organisms. -/
def groupTwo : SimulationGroup := ⟨[['A', 'a'], ['A', 'a']], [geneA], 2, Mode.random, []⟩

/-- A group holding three `AA` and one `Aa`. -/
def groupC1 : SimulationGroup :=
  ⟨[['A', 'A'], ['A', 'a'], ['A', 'A'], ['A', 'A']], [geneA], 2, Mode.random, []⟩

/-- A system whose current group holds a single organism, so that `/run`
always fails with an insufficient-population error. -/
def sysOne : GeneticSimulationSystem :=
  ⟨[], [("G", groupOne)], some "G"⟩

/-- A non-empty two-locus group, locked to structure `[A, B]` of length 4. -/
def groupAB4 : SimulationGroup :=
  ⟨[['A', 'a', 'B', 'b']], [geneA, geneB], 4, Mode.random, []⟩

/- Helper lemmas. -/

/-- An accepted genotype has even length. -/
theorem validate_ok_even (s : List Char) (d : GeneDict) (h : validate s d = Except.ok ()) :
    s.length % 2 = 0 := by
  unfold validate at h
  by_cases he : s.length % 2 ≠ 0
  · rw [if_pos he] at h
    exact absurd h (by simp)
  · omega

/-- With an invalid argument pair, the `Gene` constructor raises. -/
theorem mkGene_invalid (dom rec dt rt : String)
    (h : dom.toList.length ≠ 1 ∨ rec.toList.length ≠ 1 ∨ dom = rec) :
    mkGene dom rec dt rt = Except.error Err.invalidGene := by
  unfold mkGene
  cases hdom : dom.toList with
  | nil => rfl
  | cons d0 tl =>
    cases tl with
    | cons _ _ => rfl
    | nil =>
      cases hrec : rec.toList with
      | nil => rfl
      | cons r0 tr =>
        cases tr with
        | cons _ _ => rfl
        | nil =>
          have heq : dom = rec := by
            rcases h with h1 | h2 | h3
            · rw [hdom] at h1
              exact absurd rfl h1
            · rw [hrec] at h2
              exact absurd rfl h2
            · exact h3
          simp only [hdom, hrec, heq, if_pos]

/-- With two distinct single-character arguments, the `Gene` constructor
stores the uppercased dominant and lowercased recessive characters. -/
theorem mkGene_ok (dom rec dt rt : String) (c r : Char)
    (hc : dom.toList = [c]) (hr : rec.toList = [r]) (hne : dom ≠ rec) :
    mkGene dom rec dt rt = Except.ok ⟨c.toUpper, r.toLower, dt, rt⟩ := by
  unfold mkGene
  simp only [hc, hr]
  rw [if_neg hne]

/-- On a non-empty population, `add_organism` either just appends the
genotype or fails leaving the group untouched. -/
theorem add_organism_nonempty (g : SimulationGroup) (s : List Char) (d : GeneDict)
    (h : g.current_generation ≠ []) :
    (add_organism g s d = ({ g with current_generation := g.current_generation ++ [s] }, none) ∧
      validate s d = Except.ok () ∧ s.length = g.gene_length) ∨
    (add_organism g s d).1 = g ∧ (add_organism g s d).2.isSome := by
  unfold add_organism
  rw [if_neg h]
  cases hv : validate s d with
  | error e => right; simp
  | ok u =>
      cases u
      by_cases hl : s.length ≠ g.gene_length
      · right
        simp [if_pos hl]
      · left
        refine ⟨by simp [if_neg hl], rfl, by omega⟩

/- Claim C1. -/

/-- Claim C1 (status: code_bug).  The claim (and the spec) says that when at
least `amount` exact occurrences of the genotype exist, `del` removes exactly
`amount` of them, keeping the remaining occurrences.  The code instead
filters out every occurrence and then truncates, so surplus occurrences are
lost: on a group holding three `AA` and one `Aa`, deleting two `AA` leaves
only `[Aa]` (the claim requires `[Aa, AA]` up to order), even though the
code itself prints that exactly `amount` organisms were deleted. -/
theorem change_del_removes_all_matches :
    change_comp groupC1 dictA ['A', 'A'] "del" 2 =
      ({ current_generation := [['A', 'a']], gene_structure := [geneA], gene_length := 2,
         experiment_mode := Mode.random, breed_history := [] }, none) := by decide

/- Claim C2. -/

/-- Claim C2, amended (status: corrected).  `run_for_times(count)` performs
exactly `count` run-one-generation invocations, no matter what happens in
the individual iterations: every error raised during an iteration is caught
either inside `run_simulation` (breeding failures) or by
`process_command`'s blanket handler, so it never propagates and never
aborts the remaining repetitions. -/
theorem run_for_times_runs_all (rs : Nat → Rnd) :
    ∀ (n i : Nat) (sys : GeneticSimulationSystem), (runForTimes rs n i sys).2.1 = n
  | 0, _, _ => rfl
  | n + 1, i, sys => by
      have ih := run_for_times_runs_all rs n (i + 1) (processRun (rs i) sys).1
      simp only [runForTimes]
      omega

/-- Claim C2 counterexample: on a system whose current group holds a single
organism, every `/run` iteration raises (and reports) an
insufficient-population error, yet `run_for_times(3)` still performs all
three invocations (three errors are counted, three iterations run, and the
state is unchanged) — refuting the claim that an error during an iteration
propagates and aborts the remaining repetitions. -/
theorem runs_counterexample :
    (runForTimes (fun _ => idRnd) 3 0 sysOne).2.2 = 3 ∧
    (runForTimes (fun _ => idRnd) 3 0 sysOne).2.1 = 3 ∧
    (runForTimes (fun _ => idRnd) 3 0 sysOne).1 = sysOne := by
  exact ⟨rfl, rfl, rfl⟩

/- Claim C3. -/

/-- Claim C3 counterexample: defining dominant `"A"` with recessive `"a"`
succeeds and registers the gene, while the claim requires it to fail with
`InvalidGene` because the case-insensitive identities are equal.  (This is
the program's intended normal usage: its own help text registers genes
exactly this way, and the spec's §8 scenario does too.) -/
theorem add_gene_Aa_succeeds :
    add_gene [] ["A", "a", "tall", "short"] = Except.ok [(['A'], geneA)] := by rfl

/-- Claim C3, amended (status: corrected).  With four arguments, gene
definition fails with `DuplicateGene` if `uppercase(dominant_char)` is
already registered (this check runs before allele validation); otherwise it
fails with `InvalidGene` if either allele argument is not exactly one
character or the two arguments are exactly equal as strings (the comparison
is case-sensitive, so dominant `"A"` with recessive `"a"` is accepted);
otherwise it stores a `Gene` under `symbol = uppercase(dominant_char)` with
the dominant character uppercased and the recessive character lowercased. -/
theorem add_gene_spec (d : GeneDict) (dom rec dt rt : String) :
    ((findGene d (dom.toList.map Char.toUpper)).isSome = true →
      add_gene d [dom, rec, dt, rt] = Except.error Err.duplicateGene) ∧
    ((findGene d (dom.toList.map Char.toUpper)).isSome = false →
      (dom.toList.length ≠ 1 ∨ rec.toList.length ≠ 1 ∨ dom = rec) →
      add_gene d [dom, rec, dt, rt] = Except.error Err.invalidGene) ∧
    (∀ c r, (findGene d (dom.toList.map Char.toUpper)).isSome = false →
      dom.toList = [c] → rec.toList = [r] → dom ≠ rec →
      add_gene d [dom, rec, dt, rt] =
        Except.ok (d ++ [(dom.toList.map Char.toUpper, ⟨c.toUpper, r.toLower, dt, rt⟩)])) := by
  refine ⟨?_, ?_, ?_⟩
  · intro h
    simp only [add_gene, h, if_true]
  · intro h hbad
    simp only [add_gene, h, Bool.false_eq_true, if_false]
    rw [mkGene_invalid dom rec dt rt hbad]
  · intro c r h hc hr hne
    simp only [add_gene, h, Bool.false_eq_true, if_false]
    rw [mkGene_ok dom rec dt rt c r hc hr hne]

/-- Witness for `add_gene_spec`: concrete successful registration of gene B
on an empty registry through the theorem's success branch. -/
theorem add_gene_spec_witness :
    add_gene [] ["B", "b", "round", "wrinkled"] =
      Except.ok [(['B'], ⟨'B', 'b', "round", "wrinkled"⟩)] :=
  (add_gene_spec [] "B" "b" "round" "wrinkled").2.2 'B' 'b' (by rfl) (by rfl) (by rfl)
    (by decide)

/- Claim C7. -/

/-- Claim C7 (status: confirmed).  Breeding a population with fewer than two
organisms fails with `InsufficientPopulation` and returns the population
exactly as it was: organism list, locked structure and breeding history are
all unchanged (the exception fires before any field is assigned). -/
theorem breed_insufficient (g : SimulationGroup) (d : GeneDict) (r : Rnd)
    (h : g.current_generation.length < 2) :
    breed g d r = (g, some Err.insufficientPopulation) := by
  unfold breed
  rw [if_pos h]

/-- Witness for `breed_insufficient`: a single-organism group. -/
theorem breed_insufficient_witness :
    groupOne.current_generation.length < 2 ∧
    breed groupOne dictA idRnd = (groupOne, some Err.insufficientPopulation) :=
  ⟨by decide, breed_insufficient groupOne dictA idRnd (by decide)⟩

/- Claim C4. -/

/-- The `add` loop of `change_composition` never touches the locked
structure when it starts from a non-empty population. -/
theorem addLoop_stable (d : GeneDict) (s : List Char) :
    ∀ (n : Nat) (g : SimulationGroup), g.current_generation ≠ [] →
      (addLoop d s n g).1.gene_structure = g.gene_structure ∧
      (addLoop d s n g).1.gene_length = g.gene_length
  | 0, g, _ => ⟨rfl, rfl⟩
  | n + 1, g, h => by
      rcases add_organism_nonempty g s d h with ⟨hadd, _, _⟩ | ⟨h1, h2⟩
      · have hne : ({ g with current_generation := g.current_generation ++ [s] } :
            SimulationGroup).current_generation ≠ [] := by simp
        have ih := addLoop_stable d s n _ hne
        simp only [addLoop, hadd]
        exact ih
      · obtain ⟨e, he⟩ := Option.isSome_iff_exists.mp h2
        have heta : ((add_organism g s d).1, (add_organism g s d).2) = add_organism g s d :=
          Prod.mk.eta
        rw [h1, he] at heta
        have hres : add_organism g s d = (g, some e) := heta.symm
        simp [addLoop, hres]

/-- Claim C4, amended (status: corrected).  The locked locus structure and
genotype length are immutable under every operation applied to a momentarily
non-empty population: adding (with failures leaving the structure alone and
wrong lengths failing `LengthMismatch`), deleting, and breeding.  The
original claim is false because the structure is re-initialized whenever an
organism is added to an *empty* population, and a population that has
already received organisms can be emptied again by `del`; immutability
therefore holds only while the population stays non-empty (see the
counterexample). -/
theorem structure_stable_of_nonempty (g : SimulationGroup) (op : Op)
    (h : g.current_generation ≠ []) :
    (applyOp g op).1.gene_structure = g.gene_structure ∧
    (applyOp g op).1.gene_length = g.gene_length := by
  cases op with
  | addOrg d s =>
      rcases add_organism_nonempty g s d h with ⟨hadd, _, _⟩ | ⟨h1, _⟩
      · simp [applyOp, hadd]
      · simp [applyOp, h1]
  | change d geno o n =>
      simp only [applyOp]
      unfold change_comp
      cases validate geno d with
      | error e => exact ⟨rfl, rfl⟩
      | ok u =>
          cases u
          by_cases hlen : g.gene_length > 0 ∧ geno.length ≠ g.gene_length
          · rw [if_pos hlen]
            exact ⟨rfl, rfl⟩
          · rw [if_neg hlen]
            by_cases hadd : o = "add"
            · rw [if_pos hadd]
              exact addLoop_stable d geno n g h
            · rw [if_neg hadd]
              by_cases hdel : o = "del"
              · rw [if_pos hdel]
                by_cases hcnt : g.current_generation.count geno < n
                · rw [if_pos hcnt]
                  exact ⟨rfl, rfl⟩
                · rw [if_neg hcnt]
                  exact ⟨rfl, rfl⟩
              · rw [if_neg hdel]
                exact ⟨rfl, rfl⟩
  | breedOp d r =>
      simp only [applyOp]
      unfold breed
      by_cases hlt : g.current_generation.length < 2
      · rw [if_pos hlt]
        exact ⟨rfl, rfl⟩
      · rw [if_neg hlt]
        cases hmode : g.experiment_mode with
        | cross =>
            simp only [hmode]
            cases hres : breedPairs d r.pick 0
                ((r.shufflePairs (crossPairs g.current_generation)).take
                  (g.current_generation.length / 2)) with
            | none => simp [hres]
            | some next => simp [hres]
        | random =>
            simp only [hmode]
            cases hres : breedPairs d r.pick 0
                (consecPairs (r.shuffleParents g.current_generation)) with
            | none => simp [hres]
            | some next => simp [hres]

/-- Witness for `structure_stable_of_nonempty`: adding to a concrete
non-empty group keeps its structure and length. -/
theorem structure_stable_witness :
    groupOne.current_generation ≠ [] ∧
    (applyOp groupOne (Op.addOrg dictA ['A', 'a'])).1.gene_structure = groupOne.gene_structure ∧
    (applyOp groupOne (Op.addOrg dictA ['A', 'a'])).1.gene_length = groupOne.gene_length :=
  ⟨by decide, structure_stable_of_nonempty groupOne (Op.addOrg dictA ['A', 'a']) (by decide)⟩

/-- Claim C4 counterexample: a population that received its first organism
(locking structure `[A, B]`, length 4), was emptied by `del`, and then
received a genotype of length 2; the claim requires that later add to fail
with `LengthMismatch` and the locus structure to stay `[A, B]`, but the add
succeeds (error `none`) and re-locks the structure to `[A]` with length 2. -/
theorem structure_changes_after_emptying :
    (applySeq SimulationGroup.init [Op.addOrg dictAB ['A', 'a', 'B', 'b']]).gene_structure =
      [geneA, geneB] ∧
    (applySeq SimulationGroup.init [Op.addOrg dictAB ['A', 'a', 'B', 'b']]).gene_length = 4 ∧
    applyOp (applySeq SimulationGroup.init
        [Op.addOrg dictAB ['A', 'a', 'B', 'b'], Op.change dictAB ['A', 'a', 'B', 'b'] "del" 1])
        (Op.addOrg dictAB ['A', 'a']) =
      ({ current_generation := [['A', 'a']], gene_structure := [geneA], gene_length := 2,
         experiment_mode := Mode.random, breed_history := [] }, none) :=
  ⟨by decide, by decide, by decide⟩

/- Claim C9. -/

/-- If the remaining symbol characters contain a repeat (or repeat something
already seen), the structure-initialization loop fails. -/
theorem initLoop_dup (d : GeneDict) :
    ∀ (l : List Char) (seen : List (List Char)) (acc : List Gene),
      (¬ (l.map fun c => ([c.toUpper] : List Char)).Nodup ∨
        ∃ c ∈ l, ([c.toUpper] : List Char) ∈ seen) →
      (initLoop d l seen acc).2.isSome
  | [], seen, acc, h => by
      rcases h with h1 | ⟨c, hc, _⟩
      · simp at h1
      · simp at hc
  | c :: rest, seen, acc, h => by
      simp only [initLoop]
      by_cases hs : ([c.toUpper] : List Char) ∈ seen
      · simp [hs]
      · simp only [hs, if_false]
        cases hf : findGene d [c.toUpper] with
        | none => simp
        | some g =>
            apply initLoop_dup d rest ([c.toUpper] :: seen) (acc ++ [g])
            rcases h with h1 | ⟨c2, hc2, hin2⟩
            · by_cases hmem : ([c.toUpper] : List Char) ∈ rest.map fun x => ([x.toUpper] : List Char)
              · right
                obtain ⟨c3, hc3, he3⟩ := List.mem_map.mp hmem
                exact ⟨c3, hc3, by rw [he3]; exact List.mem_cons_self _ _⟩
              · left
                intro hnd
                rw [List.map_cons] at h1
                exact h1 (List.nodup_cons.mpr ⟨hmem, hnd⟩)
            · rcases List.mem_cons.mp hc2 with heq | hc2r
              · exact absurd (heq ▸ hin2) hs
              · exact Or.inr ⟨c2, hc2r, List.mem_cons_of_mem _ hin2⟩

/-- Claim C9 (status: confirmed).  Adding a genotype whose symbol characters
repeat a gene (the same symbol at more than one locus) to an *empty*
population always fails, because `initialize_structure` rejects duplicate
symbols; but the very same duplicate-symbol genotype is accepted into a
non-empty population of matching length when it validates, because the
duplicate check only runs during structure initialization. -/
theorem add_organism_duplicate_loci (g : SimulationGroup) (d : GeneDict) (s : List Char) :
    (g.current_generation = [] → ¬ ((evens s).map Char.toUpper).Nodup →
      (add_organism g s d).2.isSome) ∧
    (g.current_generation ≠ [] → validate s d = Except.ok () → s.length = g.gene_length →
      add_organism g s d = ({ g with current_generation := g.current_generation ++ [s] }, none)) := by
  constructor
  · intro hemp hdup
    unfold add_organism
    rw [if_pos hemp]
    have hil : (initLoop d (evens s) [] []).2.isSome := by
      apply initLoop_dup
      left
      intro hnd
      apply hdup
      have hmm : (evens s).map (fun c => ([c.toUpper] : List Char)) =
          ((evens s).map Char.toUpper).map (fun x => [x]) := by
        rw [List.map_map]
        rfl
      rw [hmm] at hnd
      exact hnd.of_map _
    unfold initialize_structure
    cases hl : initLoop d (evens s) [] [] with
    | mk str e =>
        cases e with
        | none =>
            rw [hl] at hil
            simp at hil
        | some e0 => simp
  · intro hne hv hlen
    unfold add_organism
    rw [if_neg hne]
    simp [hv, hlen]

/-- Witness for `add_organism_duplicate_loci`: `AaAa` is rejected by an
empty population but accepted by a non-empty length-4 population. -/
theorem add_organism_duplicate_loci_witness :
    (add_organism SimulationGroup.init ['A', 'a', 'A', 'a'] dictA).2.isSome ∧
    add_organism groupAB4 ['A', 'a', 'A', 'a'] dictAB =
      ({ groupAB4 with current_generation :=
          groupAB4.current_generation ++ [['A', 'a', 'A', 'a']] }, none) :=
  ⟨(add_organism_duplicate_loci SimulationGroup.init dictA ['A', 'a', 'A', 'a']).1
      (by decide) (by decide),
   (add_organism_duplicate_loci groupAB4 dictAB ['A', 'a', 'A', 'a']).2
      (by decide) (by rfl) (by decide)⟩

/- Claim C6. -/

/-- A value produced by `firstSome` occurs in the list. -/
theorem firstSome_mem {α : Type} : ∀ (l : List (Option α)) (a : α),
    firstSome l = some a → some a ∈ l
  | [], a, h => by simp [firstSome] at h
  | none :: r, a, h => by
      simp only [firstSome] at h
      exact List.mem_cons_of_mem _ (firstSome_mem r a h)
  | some b :: r, a, h => by
      simp only [firstSome] at h
      exact h ▸ List.mem_cons_self _ _

/-- The per-locus check never reports a malformed genotype. -/
theorem locusErr_ne_malformed (d : GeneDict) (ab : Char × Char) :
    locusErr d ab ≠ some Err.malformedGenotype := by
  unfold locusErr
  cases findGene d [ab.1.toUpper] with
  | none => simp
  | some gene =>
      dsimp only
      by_cases h1 : ¬(ab.1 = gene.dominant ∨ ab.1 = gene.recessive) ∨
          ¬(ab.2 = gene.dominant ∨ ab.2 = gene.recessive)
      · rw [if_pos h1]
        simp
      · rw [if_neg h1]
        by_cases h2 : ab.2 = gene.dominant ∧ ab.1 = gene.recessive
        · rw [if_pos h2]
          simp
        · rw [if_neg h2]
          simp

/-- On even-length input, the locus scan returns exactly the first per-locus
failure, in locus order. -/
theorem validateLoci_spec (d : GeneDict) :
    ∀ s : List Char, s.length % 2 = 0 →
      validateLoci d s =
        (match firstSome ((loci s).map (locusErr d)) with
         | none => Except.ok ()
         | some e => Except.error e)
  | [], _ => by simp [validateLoci, loci, firstSome]
  | [a], h => by simp at h
  | a :: b :: rest, h => by
      have hr : rest.length % 2 = 0 := by
        simp only [List.length_cons] at h
        omega
      have ih := validateLoci_spec d rest hr
      simp only [validateLoci, loci, List.map_cons]
      cases hf : findGene d [a.toUpper] with
      | none => simp [locusErr, hf, firstSome]
      | some gene =>
          dsimp only
          have hlab : locusErr d (a, b) =
              (if ¬(a = gene.dominant ∨ a = gene.recessive) ∨
                  ¬(b = gene.dominant ∨ b = gene.recessive) then some Err.invalidAllele
               else if b = gene.dominant ∧ a = gene.recessive then some Err.badAlleleOrder
               else none) := by
            unfold locusErr
            rw [show ((a, b).1 : Char) = a from rfl, hf]
          by_cases ha : ¬(a = gene.dominant ∨ a = gene.recessive) ∨
              ¬(b = gene.dominant ∨ b = gene.recessive)
          · rw [if_pos ha, hlab, if_pos ha]
            simp [firstSome]
          · rw [if_neg ha, hlab, if_neg ha]
            by_cases ho : b = gene.dominant ∧ a = gene.recessive
            · rw [if_pos ho, if_pos ho]
              simp [firstSome]
            · rw [if_neg ho, if_neg ho, ih]
              simp [firstSome]

/-- Claim C6 (status: confirmed).  The validator fails `MalformedGenotype`
exactly when the genotype's length is odd; on even length it scans the loci
in steps of two and reports the first failing locus's first failing check —
`UnknownGene` when the locus's first character's uppercase form names no
registered gene, `InvalidAllele` when either character is outside that
gene's allele set, `BadAlleleOrder` when a heterozygous locus is written
recessive-then-dominant — and accepts exactly when no locus fails.  The
embedded validator is a pure function of the genotype and registry, so it
cannot mutate the registry. -/
theorem validate_spec (s : List Char) (d : GeneDict) :
    validate s d =
      (if s.length % 2 ≠ 0 then Except.error Err.malformedGenotype
       else
        match firstSome ((loci s).map (locusErr d)) with
        | none => Except.ok ()
        | some e => Except.error e) ∧
    (validate s d = Except.error Err.malformedGenotype ↔ s.length % 2 = 1) := by
  have hmain : validate s d =
      (if s.length % 2 ≠ 0 then Except.error Err.malformedGenotype
       else
        match firstSome ((loci s).map (locusErr d)) with
        | none => Except.ok ()
        | some e => Except.error e) := by
    unfold validate
    by_cases he : s.length % 2 ≠ 0
    · rw [if_pos he, if_pos he]
    · rw [if_neg he, if_neg he]
      exact validateLoci_spec d s (by omega)
  refine ⟨hmain, ?_, ?_⟩
  · intro h
    by_cases he : s.length % 2 ≠ 0
    · omega
    · exfalso
      rw [hmain, if_neg he] at h
      cases hfs : firstSome ((loci s).map (locusErr d)) with
      | none =>
          rw [hfs] at h
          simp at h
      | some e =>
          rw [hfs] at h
          simp only [Except.error.injEq] at h
          subst h
          obtain ⟨ab, hab, habe⟩ := List.mem_map.mp (firstSome_mem _ _ hfs)
          exact locusErr_ne_malformed d ab habe
  · intro h
    rw [hmain, if_pos (by omega)]

/- Claim C5. -/

/-- On success, the breeding loop produces one child per pair. -/
theorem breedPairs_length (d : GeneDict) (pk : Nat → Nat → Bool × Bool) :
    ∀ (i : Nat) (ps : List (List Char × List Char)) (cs : List (List Char)),
      breedPairs d pk i ps = some cs → cs.length = ps.length
  | i, [], cs, h => by
      simp only [breedPairs, Option.some.injEq] at h
      rw [← h]
      rfl
  | i, p :: rest, cs, h => by
      simp only [breedPairs] at h
      cases hc : create_child d (pk i) p.1 p.2 with
      | none =>
          rw [hc] at h
          simp at h
      | some c =>
          rw [hc] at h
          cases hb : breedPairs d pk (i + 1) rest with
          | none =>
              rw [hb] at h
              simp at h
          | some cs2 =>
              rw [hb] at h
              simp only [Option.some.injEq] at h
              have hlen := breedPairs_length d pk (i + 1) rest cs2 hb
              rw [← h]
              simp [hlen]

/-- Consecutive pairing halves the list length, dropping an odd leftover. -/
theorem consecPairs_length {α : Type} : ∀ l : List α, (consecPairs l).length = l.length / 2
  | [] => by simp [consecPairs]
  | [_] => by simp [consecPairs]
  | _ :: _ :: r => by
      simp only [consecPairs, List.length_cons]
      rw [consecPairs_length r]
      omega

/-- Claim C5 (status: confirmed).  Whenever `breed` succeeds on a population
of size N (with a permutation-valued shuffle oracle), the new generation has
exactly `N / 2` members in random mode — consecutive pairs of the shuffled
parents each yield one child and an odd leftover is dropped — and at most
`N / 2` members in cross mode, where only the first `N / 2` shuffled pairs
are bred. -/
theorem breed_size (g : SimulationGroup) (d : GeneDict) (r : Rnd) (g1 : SimulationGroup)
    (hr : GoodRnd r) (h : breed g d r = (g1, none)) :
    (g.experiment_mode = Mode.random →
      g1.current_generation.length = g.current_generation.length / 2) ∧
    (g.experiment_mode = Mode.cross →
      g1.current_generation.length ≤ g.current_generation.length / 2) := by
  unfold breed at h
  by_cases hlt : g.current_generation.length < 2
  · rw [if_pos hlt] at h
    exact absurd (congrArg Prod.snd h) (by simp)
  · rw [if_neg hlt] at h
    cases hmode : g.experiment_mode with
    | random =>
        rw [hmode] at h
        simp only [] at h
        cases hb : breedPairs d r.pick 0 (consecPairs (r.shuffleParents g.current_generation)) with
        | none =>
            rw [hb] at h
            exact absurd (congrArg Prod.snd h) (by simp)
        | some next =>
            rw [hb] at h
            dsimp only at h
            rw [Prod.mk.injEq] at h
            obtain ⟨hg1, _⟩ := h
            refine ⟨fun _ => ?_, fun hx => by simp at hx⟩
            rw [← hg1]
            dsimp only
            have h1 := breedPairs_length d r.pick 0 _ next hb
            rw [h1, consecPairs_length, (hr.1 g.current_generation).length_eq]
    | cross =>
        rw [hmode] at h
        simp only [] at h
        cases hb : breedPairs d r.pick 0
            ((r.shufflePairs (crossPairs g.current_generation)).take
              (g.current_generation.length / 2)) with
        | none =>
            rw [hb] at h
            exact absurd (congrArg Prod.snd h) (by simp)
        | some next =>
            rw [hb] at h
            dsimp only at h
            rw [Prod.mk.injEq] at h
            obtain ⟨hg1, _⟩ := h
            refine ⟨fun hx => by simp at hx, fun _ => ?_⟩
            rw [← hg1]
            dsimp only
            have h1 := breedPairs_length d r.pick 0 _ next hb
            rw [h1, List.length_take]
            exact Nat.min_le_left _ _

/-- Witness for `breed_size`: breeding two `Aa` organisms with the identity
shuffle oracle yields exactly one child. -/
theorem breed_size_witness :
    GoodRnd idRnd ∧
    ({ groupTwo with current_generation := [['A', 'A']], breed_history := [(2, 1)] } :
        SimulationGroup).current_generation.length = groupTwo.current_generation.length / 2 :=
  ⟨⟨fun l => List.Perm.refl l, fun l => List.Perm.refl l⟩,
   (breed_size groupTwo dictA idRnd
      { groupTwo with current_generation := [['A', 'A']], breed_history := [(2, 1)] }
      ⟨fun l => List.Perm.refl l, fun l => List.Perm.refl l⟩ (by decide)).1 rfl⟩

/- Claim C10. -/

/-- On success, the gamete loop returns one character pair per locus of
parent 1. -/
theorem gametes_length (d : GeneDict) (pick : Nat → Bool × Bool) :
    ∀ (k : Nat) (p1 p2 cg : List Char), gametes d pick k p1 p2 = some cg →
      cg.length = p1.length
  | _, [], p2, cg, h => by
      simp only [gametes, Option.some.injEq] at h
      rw [← h]
  | k, a :: b :: r1, c :: e :: r2, cg, h => by
      simp only [gametes] at h
      cases hf : findGene d [a.toUpper] with
      | none =>
          rw [hf] at h
          simp at h
      | some g0 =>
          rw [hf] at h
          cases hr : gametes d pick (k + 1) r1 r2 with
          | none =>
              rw [hr] at h
              simp at h
          | some rest =>
              rw [hr] at h
              simp only [Option.some.injEq] at h
              have hlen := gametes_length d pick (k + 1) r1 r2 rest hr
              rw [← h]
              simp [hlen]
  | _, [_], _, cg, h => by simp [gametes] at h
  | _, _ :: _ :: _, [], cg, h => by simp [gametes] at h
  | _, _ :: _ :: _, [_], cg, h => by simp [gametes] at h

/-- On success, the canonicalization loop preserves length. -/
theorem canonLoop_length (d : GeneDict) :
    ∀ (cg ch : List Char), canonLoop d cg = some ch → ch.length = cg.length
  | [], ch, h => by
      simp only [canonLoop, Option.some.injEq] at h
      rw [← h]
  | a :: b :: r, ch, h => by
      simp only [canonLoop] at h
      cases hf : findGene d [a.toUpper] with
      | none =>
          rw [hf] at h
          simp at h
      | some gene =>
          rw [hf] at h
          cases hc : canonLoop d r with
          | none =>
              rw [hc] at h
              simp at h
          | some rest =>
              rw [hc] at h
              simp only [Option.some.injEq] at h
              have hlen := canonLoop_length d r rest hc
              have hcl : (canonLocus gene a b).length = 2 := by
                unfold canonLocus
                by_cases hswap : a = gene.recessive ∧ b ≠ gene.recessive
                · rw [if_pos hswap]
                  rfl
                · rw [if_neg hswap]
                  rfl
              rw [← h, List.length_append, hcl, hlen]
              simp only [List.length_cons]
              omega
  | [_], ch, h => by simp [canonLoop] at h

/-- A child has the same genotype length as parent 1. -/
theorem create_child_length (d : GeneDict) (pick : Nat → Bool × Bool) (p1 p2 ch : List Char)
    (h : create_child d pick p1 p2 = some ch) : ch.length = p1.length := by
  unfold create_child at h
  cases hg : gametes d pick 0 p1 p2 with
  | none =>
      rw [hg] at h
      simp at h
  | some cg =>
      rw [hg] at h
      dsimp only at h
      calc ch.length = cg.length := canonLoop_length d cg ch h
        _ = p1.length := gametes_length d pick 0 p1 p2 cg hg

/-- Every child of a successful breeding loop comes from one of the pairs. -/
theorem breedPairs_sound (d : GeneDict) (pk : Nat → Nat → Bool × Bool) :
    ∀ (i : Nat) (ps : List (List Char × List Char)) (cs : List (List Char)),
      breedPairs d pk i ps = some cs →
      ∀ c ∈ cs, ∃ p, p ∈ ps ∧ ∃ f, create_child d f p.1 p.2 = some c
  | _, [], cs, h => by
      simp only [breedPairs, Option.some.injEq] at h
      rw [← h]
      intro c hc
      simp at hc
  | i, p :: rest, cs, h => by
      simp only [breedPairs] at h
      cases hc : create_child d (pk i) p.1 p.2 with
      | none =>
          rw [hc] at h
          simp at h
      | some c0 =>
          rw [hc] at h
          cases hb : breedPairs d pk (i + 1) rest with
          | none =>
              rw [hb] at h
              simp at h
          | some cs2 =>
              rw [hb] at h
              simp only [Option.some.injEq] at h
              intro c hcin
              rw [← h] at hcin
              rcases List.mem_cons.mp hcin with rfl | hcs2
              · exact ⟨p, List.mem_cons_self _ _, pk i, hc⟩
              · obtain ⟨p2, hp2, f, hf⟩ := breedPairs_sound d pk (i + 1) rest cs2 hb c hcs2
                exact ⟨p2, List.mem_cons_of_mem _ hp2, f, hf⟩

/-- Both components of a consecutive pair belong to the paired list. -/
theorem consecPairs_mem {α : Type} : ∀ (l : List α) (p : α × α), p ∈ consecPairs l →
    p.1 ∈ l ∧ p.2 ∈ l
  | [], p, h => by simp [consecPairs] at h
  | [_], p, h => by simp [consecPairs] at h
  | a :: b :: r, p, h => by
      simp only [consecPairs] at h
      rcases List.mem_cons.mp h with rfl | hr
      · exact ⟨List.mem_cons_self _ _, List.mem_cons_of_mem _ (List.mem_cons_self _ _)⟩
      · have hm := consecPairs_mem r p hr
        exact ⟨List.mem_cons_of_mem _ (List.mem_cons_of_mem _ hm.1),
               List.mem_cons_of_mem _ (List.mem_cons_of_mem _ hm.2)⟩

/-- The first-occurrence keys all belong to the original list. -/
theorem keysOf_subset : ∀ (l : List (List Char)), ∀ x ∈ keysOf l, x ∈ l
  | [] => by simp [keysOf]
  | a :: r => by
      intro x hx
      simp only [keysOf] at hx
      rcases List.mem_cons.mp hx with rfl | hx2
      · exact List.mem_cons_self _ _
      · have hm := keysOf_subset (r.filter fun y => decide (y ≠ a)) x hx2
        exact List.mem_cons_of_mem _ (List.mem_of_mem_filter hm)
termination_by l => l.length
decreasing_by
  simp only [List.length_cons]
  exact Nat.lt_succ_of_le (List.length_filter_le _ _)

/-- Both components of every constructed cross pair are keys. -/
theorem pairsFromKeys_mem (parents : List (List Char)) :
    ∀ (ks : List (List Char)) (p : List Char × List Char), p ∈ pairsFromKeys parents ks →
      p.1 ∈ ks ∧ p.2 ∈ ks
  | [], p, h => by simp [pairsFromKeys] at h
  | k :: rest, p, h => by
      simp only [pairsFromKeys] at h
      rcases List.mem_append.mp h with hab | h2
      · rcases List.mem_append.mp hab with hflat | hrep
        · obtain ⟨l2, hl2, hpl⟩ := List.mem_flatten.mp hflat
          obtain ⟨k2, hk2, rfl⟩ := List.mem_map.mp hl2
          have hpe := List.eq_of_mem_replicate hpl
          rw [hpe]
          exact ⟨List.mem_cons_self _ _, List.mem_cons_of_mem _ hk2⟩
        · have hpe := List.eq_of_mem_replicate hrep
          rw [hpe]
          exact ⟨List.mem_cons_self _ _, List.mem_cons_self _ _⟩
      · have hm := pairsFromKeys_mem parents rest p h2
        exact ⟨List.mem_cons_of_mem _ hm.1, List.mem_cons_of_mem _ hm.2⟩

/-- Both parents of every cross-mode candidate pair are population members. -/
theorem crossPairs_mem (parents : List (List Char)) (p : List Char × List Char)
    (h : p ∈ crossPairs parents) : p.1 ∈ parents ∧ p.2 ∈ parents := by
  unfold crossPairs at h
  have hm := pairsFromKeys_mem parents (keysOf parents) p h
  exact ⟨keysOf_subset parents p.1 hm.1, keysOf_subset parents p.2 hm.2⟩

/-- `add_organism` into an empty population either leaves it empty (on any
failure) or produces the singleton population with the length freshly
locked to the accepted genotype. -/
theorem add_organism_empty (g : SimulationGroup) (s : List Char) (d : GeneDict)
    (hemp : g.current_generation = []) :
    (add_organism g s d).1.current_generation = [] ∨
    ((add_organism g s d).1.current_generation = [s] ∧
      (add_organism g s d).1.gene_length = s.length ∧ validate s d = Except.ok ()) := by
  unfold add_organism
  rw [if_pos hemp]
  unfold initialize_structure
  cases hl : initLoop d (evens s) [] [] with
  | mk str eo =>
      cases eo with
      | some e0 =>
          left
          exact hemp
      | none =>
          dsimp only
          cases hv : validate s d with
          | error e =>
              left
              exact hemp
          | ok u =>
              cases u
              dsimp only
              rw [if_neg (by omega : ¬s.length ≠ s.length)]
              right
              refine ⟨?_, rfl, rfl⟩
              dsimp only
              rw [hemp]
              rfl

/-- `add_organism` preserves the population invariant. -/
theorem add_organism_inv (g : SimulationGroup) (s : List Char) (d : GeneDict)
    (h : PopInv g) : PopInv (add_organism g s d).1 := by
  by_cases hemp : g.current_generation = []
  · rcases add_organism_empty g s d hemp with h0 | ⟨h1, h2, h3⟩
    · intro x hx
      rw [h0] at hx
      simp at hx
    · intro x hx
      rw [h1] at hx
      rw [List.mem_singleton] at hx
      subst hx
      rw [h2]
      exact ⟨rfl, validate_ok_even x d h3⟩
  · rcases add_organism_nonempty g s d hemp with ⟨hok, hv, hlen⟩ | ⟨h1, _⟩
    · rw [hok]
      intro x hx
      dsimp only at hx ⊢
      rcases List.mem_append.mp hx with hx1 | hx2
      · exact h x hx1
      · rw [List.mem_singleton] at hx2
        subst hx2
        exact ⟨hlen, validate_ok_even x d hv⟩
    · rw [h1]
      exact h

/-- The `add` loop preserves the population invariant. -/
theorem addLoop_inv (d : GeneDict) (s : List Char) :
    ∀ (n : Nat) (g : SimulationGroup), PopInv g → PopInv (addLoop d s n g).1
  | 0, g, h => h
  | n + 1, g, h => by
      have hinv := add_organism_inv g s d h
      cases hres : add_organism g s d with
      | mk g1 eo =>
          rw [hres] at hinv
          cases eo with
          | some e =>
              simp only [addLoop, hres]
              exact hinv
          | none =>
              simp only [addLoop, hres]
              exact addLoop_inv d s n g1 hinv

/-- `change_composition` preserves the population invariant. -/
theorem change_comp_inv (g : SimulationGroup) (d : GeneDict) (geno : List Char)
    (o : String) (n : Nat) (h : PopInv g) : PopInv (change_comp g d geno o n).1 := by
  unfold change_comp
  cases hv : validate geno d with
  | error e => exact h
  | ok u =>
      cases u
      by_cases hlen : g.gene_length > 0 ∧ geno.length ≠ g.gene_length
      · rw [if_pos hlen]
        exact h
      · rw [if_neg hlen]
        by_cases hadd : o = "add"
        · rw [if_pos hadd]
          exact addLoop_inv d geno n g h
        · rw [if_neg hadd]
          by_cases hdel : o = "del"
          · rw [if_pos hdel]
            by_cases hcnt : g.current_generation.count geno < n
            · rw [if_pos hcnt]
              exact h
            · rw [if_neg hcnt]
              intro x hx
              dsimp only at hx
              have hx2 : x ∈ g.current_generation :=
                List.mem_of_mem_filter (List.take_subset _ _ hx)
              exact h x hx2
          · rw [if_neg hdel]
            exact h

/-- `breed` preserves the population invariant when the shuffle oracle is a
permutation: every child's length equals its first parent's length, and
every first parent belongs to the current population. -/
theorem breed_inv (g : SimulationGroup) (d : GeneDict) (r : Rnd) (hr : GoodRnd r)
    (h : PopInv g) : PopInv (breed g d r).1 := by
  unfold breed
  by_cases hlt : g.current_generation.length < 2
  · rw [if_pos hlt]
    exact h
  · rw [if_neg hlt]
    cases hmode : g.experiment_mode with
    | random =>
        dsimp only
        cases hb : breedPairs d r.pick 0 (consecPairs (r.shuffleParents g.current_generation)) with
        | none => exact h
        | some next =>
            intro x hx
            dsimp only at hx ⊢
            obtain ⟨p, hp, f, hchild⟩ := breedPairs_sound d r.pick 0 _ next hb x hx
            have hmem : p.1 ∈ g.current_generation :=
              ((hr.1 g.current_generation).mem_iff).mp (consecPairs_mem _ p hp).1
            have hclen := create_child_length d f p.1 p.2 x hchild
            obtain ⟨he1, he2⟩ := h p.1 hmem
            exact ⟨by rw [hclen, he1], by rw [hclen]; exact he2⟩
    | cross =>
        dsimp only
        cases hb : breedPairs d r.pick 0
            ((r.shufflePairs (crossPairs g.current_generation)).take
              (g.current_generation.length / 2)) with
        | none => exact h
        | some next =>
            intro x hx
            dsimp only at hx ⊢
            obtain ⟨p, hp, f, hchild⟩ := breedPairs_sound d r.pick 0 _ next hb x hx
            have hp2 : p ∈ crossPairs g.current_generation :=
              ((hr.2 (crossPairs g.current_generation)).mem_iff).mp
                (List.take_subset _ _ hp)
            have hmem : p.1 ∈ g.current_generation :=
              (crossPairs_mem _ p hp2).1
            have hclen := create_child_length d f p.1 p.2 x hchild
            obtain ⟨he1, he2⟩ := h p.1 hmem
            exact ⟨by rw [hclen, he1], by rw [hclen]; exact he2⟩

/-- Claim C10 (status: confirmed).  Starting from any population satisfying
the invariant (in particular the empty population a fresh group starts
with), after any sequence of successful or failed `add_organism`,
`change_composition` and `breed` operations (breeding with
permutation-valued shuffle oracles), every genotype string in the
population has the same length, that length is even, and it equals the
population's stored locked length. -/
theorem popInv_reachable : ∀ (ops : List Op) (g : SimulationGroup),
    (∀ op ∈ ops, GoodOp op) → PopInv g → PopInv (applySeq g ops)
  | [], _, _, h => h
  | op :: rest, g, hops, h => by
      have hstep : PopInv (applyOp g op).1 := by
        cases op with
        | addOrg d s => exact add_organism_inv g s d h
        | change d geno o n => exact change_comp_inv g d geno o n h
        | breedOp d r => exact breed_inv g d r (hops _ (List.mem_cons_self _ _)) h
      exact popInv_reachable rest (applyOp g op).1
        (fun o ho => hops o (List.mem_cons_of_mem _ ho)) hstep

/-- Witness for `popInv_reachable`: a concrete sequence of add, breed and
delete operations starting from a fresh group. -/
theorem popInv_reachable_witness :
    (∀ op ∈ ([Op.addOrg dictA ['A', 'a'], Op.addOrg dictA ['A', 'a'],
        Op.breedOp dictA idRnd, Op.change dictA ['A', 'A'] "del" 0] : List Op), GoodOp op) ∧
    PopInv SimulationGroup.init ∧
    PopInv (applySeq SimulationGroup.init
      [Op.addOrg dictA ['A', 'a'], Op.addOrg dictA ['A', 'a'],
       Op.breedOp dictA idRnd, Op.change dictA ['A', 'A'] "del" 0]) := by
  have hops : ∀ op ∈ ([Op.addOrg dictA ['A', 'a'], Op.addOrg dictA ['A', 'a'],
      Op.breedOp dictA idRnd, Op.change dictA ['A', 'A'] "del" 0] : List Op), GoodOp op := by
    intro op hop
    simp only [List.mem_cons, List.not_mem_nil, or_false] at hop
    rcases hop with rfl | rfl | rfl | rfl
    · trivial
    · trivial
    · exact ⟨fun l => List.Perm.refl l, fun l => List.Perm.refl l⟩
    · trivial
  have hinit : PopInv SimulationGroup.init := by
    intro x hx
    simp [SimulationGroup.init] at hx
  exact ⟨hops, hinit, popInv_reachable _ SimulationGroup.init hops hinit⟩

/- Claim C8. -/

/-- Both characters of a locus belong to the genotype. -/
theorem loci_mem : ∀ (l : List Char) (p : Char × Char), p ∈ loci l → p.1 ∈ l ∧ p.2 ∈ l
  | [], p, h => by simp [loci] at h
  | [_], p, h => by simp [loci] at h
  | a :: b :: r, p, h => by
      simp only [loci] at h
      rcases List.mem_cons.mp h with rfl | hr
      · exact ⟨List.mem_cons_self _ _, List.mem_cons_of_mem _ (List.mem_cons_self _ _)⟩
      · have hm := loci_mem r p hr
        exact ⟨List.mem_cons_of_mem _ (List.mem_cons_of_mem _ hm.1),
               List.mem_cons_of_mem _ (List.mem_cons_of_mem _ hm.2)⟩

/-- Every left element of a `Forall₂` has a related right element. -/
theorem forall2_mem_left {α β : Type} {R : α → β → Prop} :
    ∀ {l1 : List α} {l2 : List β}, List.Forall₂ R l1 l2 → ∀ a ∈ l1, ∃ b, b ∈ l2 ∧ R a b := by
  intro l1 l2 h
  induction h with
  | nil =>
      intro a ha
      simp at ha
  | cons hr hrest ih =>
      intro a ha
      rcases List.mem_cons.mp ha with rfl | ha2
      · exact ⟨_, List.mem_cons_self _ _, hr⟩
      · obtain ⟨b, hb, hrb⟩ := ih a ha2
        exact ⟨b, List.mem_cons_of_mem _ hb, hrb⟩

/-- Pointwise composition of two `Forall₂` relations. -/
theorem forall2_trans {α β γ : Type} {R : α → β → Prop} {S : β → γ → Prop} {T : α → γ → Prop}
    (hT : ∀ a b c, R a b → S b c → T a c) :
    ∀ {l1 : List α} {l2 : List β} {l3 : List γ},
      List.Forall₂ R l1 l2 → List.Forall₂ S l2 l3 → List.Forall₂ T l1 l3 := by
  intro l1 l2 l3 h12
  induction h12 generalizing l3 with
  | nil =>
      intro h23
      cases h23
      exact List.Forall₂.nil
  | cons hr hrest ih =>
      intro h23
      cases h23 with
      | cons hs hrest2 => exact List.Forall₂.cons (hT _ _ _ hr hs) (ih hrest2)

/-- A successful lookup in a well-formed registry returns a gene keyed by
its own (uppercase) dominant character, with distinct alleles. -/
theorem findGene_wf (d : GeneDict) (k : List Char) (g : Gene) (hwf : WfDict d)
    (h : findGene d k = some g) :
    k = [g.dominant] ∧ g.dominant.toUpper = g.dominant ∧ g.dominant ≠ g.recessive := by
  unfold findGene at h
  cases hfind : d.find? (fun p => decide (p.1 = k)) with
  | none =>
      rw [hfind] at h
      simp at h
  | some p =>
      rw [hfind] at h
      simp only [Option.some.injEq] at h
      have hmem : p ∈ d := List.mem_of_find?_eq_some hfind
      have hfs := List.find?_some hfind
      simp only [decide_eq_true_eq] at hfs
      have hpk : p.1 = k := hfs
      subst h
      rw [← hpk]
      exact hwf p hmem

/-- Canonicalization of one locus: the two drawn characters are kept or
swapped, and the result is never recessive-then-dominant with respect to the
gene registered under its first character. -/
theorem canonLocus_spec (d : GeneDict) (gene : Gene) (a b : Char) (hwf : WfDict d)
    (hf : findGene d [a.toUpper] = some gene) :
    ∃ x y, canonLocus gene a b = [x, y] ∧ canonRel d (x, y) (a, b) := by
  obtain ⟨hk, hup, hne⟩ := findGene_wf d _ gene hwf hf
  have hdom : gene.dominant = a.toUpper := by
    injection hk with h1 _
    exact h1.symm
  unfold canonLocus
  by_cases hswap : a = gene.recessive ∧ b ≠ gene.recessive
  · rw [if_pos hswap]
    refine ⟨b, a, rfl, Or.inr rfl, ?_⟩
    dsimp only
    rintro g2 hg2 ⟨hbrec, hadom⟩
    obtain ⟨hk2, hup2, hne2⟩ := findGene_wf d _ g2 hwf hg2
    have haup : a.toUpper = a := by
      rw [hadom]
      exact hup2
    apply hne
    rw [hdom, haup]
    exact hswap.1
  · rw [if_neg hswap]
    refine ⟨a, b, rfl, Or.inl rfl, ?_⟩
    dsimp only
    rintro g2 hg2 ⟨harec, hbdom⟩
    rw [hf] at hg2
    injection hg2 with hg2e
    subst hg2e
    have hbrec : b = gene.recessive := by
      by_contra hb
      exact hswap ⟨harec, hb⟩
    apply hne
    rw [← hbdom, hbrec]

/-- The gamete loop succeeds on parents of equal even length over registered
genes, drawing at each locus one allele of parent 1 followed by one allele
of parent 2. -/
theorem gametes_sound (d : GeneDict) (pick : Nat → Bool × Bool) :
    ∀ (k : Nat) (p1 p2 : List Char), p1.length = p2.length → p1.length % 2 = 0 →
      (∀ c ∈ p1, (findGene d [c.toUpper]).isSome) →
      ∃ cg, gametes d pick k p1 p2 = some cg ∧
        List.Forall₂ gameteFrom (loci cg) ((loci p1).zip (loci p2))
  | k, [], p2, _, _, _ => ⟨[], by simp [gametes], by simp [loci]⟩
  | k, [a], p2, hlen, heven, hreg => by simp at heven
  | k, a :: b :: r1, [], hlen, _, _ => by simp at hlen
  | k, a :: b :: r1, [c], hlen, _, _ => by simp at hlen
  | k, a :: b :: r1, c :: e :: r2, hlen, heven, hreg => by
      have hra : (findGene d [a.toUpper]).isSome := hreg a (List.mem_cons_self _ _)
      obtain ⟨g0, hg0⟩ := Option.isSome_iff_exists.mp hra
      have hlen2 : r1.length = r2.length := by
        simp at hlen
        omega
      have heven2 : r1.length % 2 = 0 := by
        simp at heven
        omega
      have hreg2 : ∀ c2 ∈ r1, (findGene d [c2.toUpper]).isSome := fun c2 hc2 =>
        hreg c2 (List.mem_cons_of_mem _ (List.mem_cons_of_mem _ hc2))
      obtain ⟨cg, hcg, hfa⟩ := gametes_sound d pick (k + 1) r1 r2 hlen2 heven2 hreg2
      refine ⟨(if (pick k).1 then a else b) :: (if (pick k).2 then c else e) :: cg, ?_, ?_⟩
      · simp only [gametes, hg0, hcg]
      · simp only [loci, List.zip_cons_cons]
        refine List.Forall₂.cons ⟨?_, ?_⟩ hfa
        · cases hpk : (pick k).1 <;> simp [hpk]
        · cases hpk : (pick k).2 <;> simp [hpk]

/-- The canonicalization loop succeeds on an even-length character list with
registered first characters, relating each output locus to its input locus
by `canonRel`. -/
theorem canonLoop_sound (d : GeneDict) (hwf : WfDict d) :
    ∀ cg : List Char, cg.length % 2 = 0 →
      (∀ ab ∈ loci cg, (findGene d [ab.1.toUpper]).isSome) →
      ∃ ch, canonLoop d cg = some ch ∧ List.Forall₂ (canonRel d) (loci ch) (loci cg)
  | [], _, _ => ⟨[], by simp [canonLoop], by simp [loci]⟩
  | [a], h, _ => by simp at h
  | a :: b :: r, heven, hreg => by
      have hra : (findGene d [a.toUpper]).isSome := by
        have hmem : (a, b) ∈ loci (a :: b :: r) := by
          simp only [loci]
          exact List.mem_cons_self _ _
        exact hreg (a, b) hmem
      obtain ⟨gene, hg⟩ := Option.isSome_iff_exists.mp hra
      have heven2 : r.length % 2 = 0 := by
        simp at heven
        omega
      have hreg2 : ∀ ab ∈ loci r, (findGene d [ab.1.toUpper]).isSome := by
        intro ab hab
        have hmem : ab ∈ loci (a :: b :: r) := by
          simp only [loci]
          exact List.mem_cons_of_mem _ hab
        exact hreg ab hmem
      obtain ⟨ch, hch, hfa⟩ := canonLoop_sound d hwf r heven2 hreg2
      obtain ⟨x, y, hxy, hrel⟩ := canonLocus_spec d gene a b hwf hg
      refine ⟨x :: y :: ch, ?_, ?_⟩
      · simp only [canonLoop, hg, hch, hxy]
        rfl
      · simp only [loci]
        exact List.Forall₂.cons hrel hfa

/-- Claim C8 (status: confirmed).  For parents of equal even length whose
characters all name registered genes (in a well-formed registry), and for
every outcome of the random gamete draws, `_create_child` succeeds and the
child has the parents' genotype length; at each locus it carries one
character taken from parent 1's two alleles and one taken from parent 2's
two alleles at that locus, and no child locus is written
recessive-then-dominant with respect to the gene registered under its first
character (canonical dominant-first form). -/
theorem create_child_sound (d : GeneDict) (p1 p2 : List Char) (pick : Nat → Bool × Bool)
    (hwf : WfDict d) (hlen : p1.length = p2.length) (heven : p1.length % 2 = 0)
    (hreg : ∀ c ∈ p1, (findGene d [c.toUpper]).isSome) :
    ∃ ch, create_child d pick p1 p2 = some ch ∧ ch.length = p1.length ∧
      List.Forall₂ (childLocusOk d) (loci ch) ((loci p1).zip (loci p2)) := by
  obtain ⟨cg, hcg, hfa⟩ := gametes_sound d pick 0 p1 p2 hlen heven hreg
  have hcglen : cg.length = p1.length := gametes_length d pick 0 p1 p2 cg hcg
  have hcgeven : cg.length % 2 = 0 := by
    rw [hcglen]
    exact heven
  have hcref : ∀ ab ∈ loci cg, (findGene d [ab.1.toUpper]).isSome := by
    intro ab hab
    obtain ⟨pq, hpq, hrel⟩ := forall2_mem_left hfa ab hab
    have hpq2 : (pq.1, pq.2) ∈ (loci p1).zip (loci p2) := by
      rw [Prod.mk.eta]
      exact hpq
    have hp1 : pq.1 ∈ loci p1 := (List.of_mem_zip hpq2).1
    have hmm := loci_mem p1 pq.1 hp1
    rcases hrel.1 with he | he
    · rw [he]
      exact hreg _ hmm.1
    · rw [he]
      exact hreg _ hmm.2
  obtain ⟨ch, hch, hfc⟩ := canonLoop_sound d hwf cg hcgeven hcref
  refine ⟨ch, ?_, ?_, ?_⟩
  · unfold create_child
    rw [hcg]
    exact hch
  · rw [canonLoop_length d cg ch hch, hcglen]
  · refine forall2_trans ?_ hfc hfa
    rintro xy ab pq hc hg
    refine ⟨?_, hc.2⟩
    rcases hc.1 with heq | hswap
    · subst heq
      exact Or.inl ⟨hg.1, hg.2⟩
    · rw [hswap]
      exact Or.inr ⟨hg.1, hg.2⟩

/-- Witness for `create_child_sound`: breeding `Aa` with `aa` under a
concrete draw oracle. -/
theorem create_child_sound_witness :
    WfDict dictA ∧
    (∃ ch, create_child dictA (fun _ => (true, true)) ['A', 'a'] ['a', 'a'] = some ch ∧
      ch.length = (['A', 'a'] : List Char).length ∧
      List.Forall₂ (childLocusOk dictA) (loci ch)
        ((loci ['A', 'a']).zip (loci ['a', 'a']))) :=
  ⟨by unfold WfDict; decide,
   create_child_sound dictA ['A', 'a'] ['a', 'a'] (fun _ => (true, true))
      (by unfold WfDict; decide) (by decide) (by decide) (by decide)⟩
